import Mathlib

/-!
# Shallow embedding of tiefring's sprite/texture rendering core (`src/tiefring/src/sprite.rs`)

This file embeds the data model and the algorithms of the sprite module:
`Sprite` / `TileSet` construction, normalized texture-coordinate computation,
the global texture-id counter, and the batching algorithm of
`TextureRenderer::render` (grouping by order index, per-group vertex/index
buffer synthesis, and the draw-call submission loop).

Modeling conventions:
* Rust `u32` / `u16` values are `Nat` with explicit wrap-around (`% 2^32`,
  `% 2^16`) applied exactly where the source performs machine arithmetic
  (release-mode wrapping semantics).
* `f32` texture coordinates are modeled as exact rationals `ℚ`: every
  coordinate produced here is a ratio of small integers and the properties of
  interest are exact-arithmetic identities; `f32` rounding is out of scope.
* GPU handles (`Rc<Texture>`, bind groups, pipelines) are represented by the
  `TextureId` that identifies them: the code never distinguishes two handles
  with the same id, and each `Texture` owns exactly one bind group and one
  pipeline.
* `itertools::into_group_map_by` over `op.index` followed by
  `keys().sorted()` is modeled as the ascending sorted list of distinct index
  keys, each group being the sublist of operations with that key in
  submission order (which is what the Rust combination computes).
-/

/-- Rust `u32` wrap-around: release-mode overflow semantics of 32-bit arithmetic. -/
def u32 (n : Nat) : Nat := n % 4294967296

/-- Rust `u16` wrap-around: release-mode overflow semantics of 16-bit arithmetic. -/
def u16 (n : Nat) : Nat := n % 65536

/-- `Size { width, height }` from the crate root (pixel dimensions, `u32` fields). -/
structure Size where
  width : Nat
  height : Nat
deriving DecidableEq, Repr

/-- `Rect { left, top, right, bottom }` from the crate root (`f32` fields, modeled in `ℚ`). -/
structure Rect where
  left : ℚ
  top : ℚ
  right : ℚ
  bottom : ℚ
deriving DecidableEq, Repr

/-- `Sprite { dimensions, tex_coords, texture }`; the shared `Rc<Texture>` is
represented by its `TextureId`. -/
structure Sprite where
  dimensions : Size
  tex_coords : Rect
  texture : Nat
deriving DecidableEq, Repr

/-- `Sprite::load_data`: wraps a freshly created texture (identified by the id the
global counter hands out) with full-rectangle tex coords `{0,0,1,1}`. -/
def Sprite.load_data (texture : Nat) (dimensions : Size) : Sprite :=
  { dimensions := dimensions
    tex_coords := { left := 0, top := 0, right := 1, bottom := 1 }
    texture := texture }

/-- `Sprite::load_image`: decoding (via the external `image` crate) either fails,
yielding `None`, or yields RGBA8 data with pixel dimensions, in which case the
result is `Sprite::load_data` on that data.  The decode outcome is the
`decoded` parameter. -/
def Sprite.load_image (texture : Nat) (decoded : Option Size) : Option Sprite :=
  match decoded with
  | none => none
  | some dimensions => some (Sprite.load_data texture dimensions)

/-- `TileSet { dimensions, tile_dimensions, texture }`. -/
structure TileSet where
  dimensions : Size
  tile_dimensions : Size
  texture : Nat
deriving DecidableEq, Repr

/-- `TileSet::tile_count`: truncating `u32` division of sheet dimensions by tile
dimensions. -/
def TileSet.tile_count (t : TileSet) : Nat × Nat :=
  (t.dimensions.width / t.tile_dimensions.width,
   t.dimensions.height / t.tile_dimensions.height)

/-- `TileSet::sprite(x, y)`: normalized tex coords of the `(x, y)` tile.  The
products `x * tile_w`, `(x + 1) * tile_w` (and vertically) are `u32`
multiplications/additions, hence the explicit wrap-around; the divisions are
`f32` divisions by the sheet dimensions, modeled exactly in `ℚ`. -/
def TileSet.sprite (t : TileSet) (x y : Nat) : Sprite :=
  { dimensions := t.tile_dimensions
    tex_coords :=
      { left := (u32 (x * t.tile_dimensions.width) : ℚ) / (t.dimensions.width : ℚ)
        top := (u32 (y * t.tile_dimensions.height) : ℚ) / (t.dimensions.height : ℚ)
        right := (u32 (u32 (x + 1) * t.tile_dimensions.width) : ℚ) / (t.dimensions.width : ℚ)
        bottom := (u32 (u32 (y + 1) * t.tile_dimensions.height) : ℚ) / (t.dimensions.height : ℚ) }
    texture := t.texture }

/-- The spec's Sprite invariant: tex coords are an ordered sub-rectangle of `[0,1]²`. -/
def Sprite.texInvariant (s : Sprite) : Prop :=
  0 ≤ s.tex_coords.left ∧ s.tex_coords.left ≤ s.tex_coords.right ∧ s.tex_coords.right ≤ 1 ∧
    0 ≤ s.tex_coords.top ∧ s.tex_coords.top ≤ s.tex_coords.bottom ∧ s.tex_coords.bottom ≤ 1

instance (s : Sprite) : Decidable s.texInvariant := by
  unfold Sprite.texInvariant; infer_instance

/-- State of the process-wide `static INDEX: AtomicU32` after `n` calls to
`Texture::new` (starts at 0; `fetch_add(1, Relaxed)` wraps at `2^32`). -/
def textureCounter : Nat → Nat
  | 0 => 0
  | n + 1 => u32 (textureCounter n + 1)

/-- `TextureId` assigned by the `n`-th call (0-based) to `Texture::new`: the
counter value fetched before the increment. -/
def textureIdOfCall (n : Nat) : Nat := textureCounter n

/-- Modelled from the spec: `renderer::depth` (the `renderer` module is not part
of the sources at hand).  The spec only requires a monotonic function of the
draw-order index compatible with the `GreaterEqual` depth compare, so the
identity embedding of the index is used. -/
def depth (index : Int) : ℚ := (index : ℚ)

/-- `DrawTextureOperation { index, destination, tex_coords, texture }` (the
shared `Rc<Texture>` is represented by its id). -/
structure DrawTextureOperation where
  index : Int
  destination : Rect
  tex_coords : Rect
  texture : Nat
deriving DecidableEq, Repr

/-- `TextureVertex { position: [f32; 3], tex_coords: [f32; 2] }`. -/
structure TextureVertex where
  position : ℚ × ℚ × ℚ
  tex_coords : ℚ × ℚ
deriving DecidableEq, Repr

/-- The four vertices `TextureRenderer::render` emits for one operation:
top-left, bottom-left, bottom-right, top-right of the destination rect, each
paired with the matching corner of the source tex-coord rect, at the depth
derived from the operation's order index. -/
def opVertices (operation : DrawTextureOperation) : List TextureVertex :=
  let d := depth operation.index
  [ { position := (operation.destination.left, operation.destination.top, d)
      tex_coords := (operation.tex_coords.left, operation.tex_coords.top) },
    { position := (operation.destination.left, operation.destination.bottom, d)
      tex_coords := (operation.tex_coords.left, operation.tex_coords.bottom) },
    { position := (operation.destination.right, operation.destination.bottom, d)
      tex_coords := (operation.tex_coords.right, operation.tex_coords.bottom) },
    { position := (operation.destination.right, operation.destination.top, d)
      tex_coords := (operation.tex_coords.right, operation.tex_coords.top) } ]

/-- The six `u16` index entries for the operation at position `i` of a group:
`let step: u16 = index as u16 * 4; [step+0, step+1, step+2, step+2, step+3, step+0]`. -/
def u16block (i : Nat) : List Nat :=
  let step := u16 (u16 i * 4)
  [u16 (step + 0), u16 (step + 1), u16 (step + 2), u16 (step + 2), u16 (step + 3), u16 (step + 0)]

/-- The index buffer of a group of `n` operations. -/
def groupIndices (n : Nat) : List Nat :=
  (List.range n).flatMap u16block

/-- The index buffer as the spec words it: `{0,1,2,2,3,0}` offset by `4*i` for
the `i`-th operation of the group, with no wrap-around.  Stated from the spec
for comparison with `groupIndices`. -/
def claimedIndices (n : Nat) : List Nat :=
  (List.range n).flatMap (fun i => [4 * i, 4 * i + 1, 4 * i + 2, 4 * i + 2, 4 * i + 3, 4 * i])

/-- The ascending sorted list of distinct `index` keys of the submitted
operations: `operations.iter().into_group_map_by(|op| op.index)` followed by
`keys().sorted()`. -/
def sortedKeys (operations : List DrawTextureOperation) : List Int :=
  List.insertionSort (· ≤ ·) ((operations.map DrawTextureOperation.index).dedup)

/-- One entry of the renderer's per-frame scratch list: the tuple
`(vertex_buffer, texture, indices, index_buffer)` (the `index_buffer`'s
contents are exactly `indices`, so it is not duplicated here). -/
structure GroupBuffers where
  vertex_buffer : List TextureVertex
  texture : Nat
  indices : List Nat
deriving DecidableEq, Repr

/-- The body of the grouping loop for one group: take the first operation's
texture (skip the group if it is empty, as the `None => continue` arm does),
emit four vertices per operation and six indices per operation. -/
def buildGroup (ops : List DrawTextureOperation) : Option GroupBuffers :=
  match ops.head? with
  | none => none
  | some first =>
    some { vertex_buffer := ops.flatMap opVertices
           texture := first.texture
           indices := groupIndices ops.length }

/-- First phase of `TextureRenderer::render`: the per-frame scratch list built
by grouping the operations by `index`, iterating keys in ascending order, and
building one vertex/index buffer pair per group. -/
def render (operations : List DrawTextureOperation) : List GroupBuffers :=
  (sortedKeys operations).filterMap
    (fun key => buildGroup (operations.filter (fun op => op.index = key)))

/-- One recorded draw call of the second phase: pipeline and bind group slot 1
come from the group's texture, the buffers are the group's, and
`draw_indexed(0..indices.len(), 0, 0..1)` covers all indices. -/
structure DrawCall where
  pipeline : Nat
  texture_bind_group : Nat
  vertex_buffer : List TextureVertex
  index_buffer : List Nat
  index_count : Nat
deriving DecidableEq, Repr

/-- Second phase of `TextureRenderer::render`: one indexed draw call per entry
of the scratch list, in the order the entries were built. -/
def drawCalls (operations : List DrawTextureOperation) : List DrawCall :=
  (render operations).map
    (fun g =>
      { pipeline := g.texture
        texture_bind_group := g.texture
        vertex_buffer := g.vertex_buffer
        index_buffer := g.indices
        index_count := g.indices.length })

/-- The group record produced for a key that does occur among the operations
(what `buildGroup` returns on the nonempty group of that key). -/
def groupFor (operations : List DrawTextureOperation) (key : Int) : GroupBuffers :=
  let ops := operations.filter (fun op => op.index = key)
  { vertex_buffer := ops.flatMap opVertices
    texture := ((ops.head?).map DrawTextureOperation.texture).getD 0
    indices := groupIndices ops.length }

/-- A tile set whose tile size does not evenly divide the sheet: sheet 100×50,
tiles 32×32 (`tile_count = (3, 1)`). -/
def tileSet100 : TileSet :=
  { dimensions := { width := 100, height := 50 }
    tile_dimensions := { width := 32, height := 32 }
    texture := 0 }

/-- A 64×64 sheet of 32×32 tiles (even division, `tile_count = (2, 2)`). -/
def tileSet64 : TileSet :=
  { dimensions := { width := 64, height := 64 }
    tile_dimensions := { width := 32, height := 32 }
    texture := 3 }

/-- A 1×1 sheet of 1×1 tiles. -/
def oneTile : TileSet :=
  { dimensions := { width := 1, height := 1 }
    tile_dimensions := { width := 1, height := 1 }
    texture := 7 }

/-- The unit rectangle, used as destination and tex-coord rect of sample operations. -/
def sampleRect : Rect := { left := 0, top := 0, right := 1, bottom := 1 }

/-- A sample draw operation with order index `i` and texture id `t`. -/
def opWith (i : Int) (t : Nat) : DrawTextureOperation :=
  { index := i, destination := sampleRect, tex_coords := sampleRect, texture := t }

/-! ## Helper lemmas -/

theorem textureCounter_eq (n : Nat) : textureCounter n = n % 4294967296 := by
  induction n with
  | zero => rfl
  | succ n ih => rw [textureCounter, ih, u32, Nat.mod_add_mod]

theorem u16block_length (i : Nat) : (u16block i).length = 6 := rfl

theorem opVertices_length (op : DrawTextureOperation) : (opVertices op).length = 4 := rfl

theorem groupIndices_succ (n : Nat) :
    groupIndices (n + 1) = groupIndices n ++ u16block n := by
  unfold groupIndices
  rw [List.range_succ, List.flatMap_append, List.flatMap_singleton]

theorem claimedIndices_succ (n : Nat) :
    claimedIndices (n + 1) =
      claimedIndices n ++ [4 * n, 4 * n + 1, 4 * n + 2, 4 * n + 2, 4 * n + 3, 4 * n] := by
  unfold claimedIndices
  rw [List.range_succ, List.flatMap_append, List.flatMap_singleton]

theorem groupIndices_length (n : Nat) : (groupIndices n).length = 6 * n := by
  induction n with
  | zero => rfl
  | succ n ih => rw [groupIndices_succ, List.length_append, ih, u16block_length]; omega

theorem u16block_eq (i : Nat) (h : i < 16384) :
    u16block i = [4 * i, 4 * i + 1, 4 * i + 2, 4 * i + 2, 4 * i + 3, 4 * i] := by
  simp only [u16block, u16, List.cons.injEq, and_true]
  omega

theorem groupIndices_eq_claimed (n : Nat) (h : n ≤ 16384) :
    groupIndices n = claimedIndices n := by
  induction n with
  | zero => rfl
  | succ n ih =>
    rw [groupIndices_succ, claimedIndices_succ, ih (by omega), u16block_eq n (by omega)]

theorem groupIndices_ne_claimed_16385 : groupIndices 16385 ≠ claimedIndices 16385 := by
  intro hEq
  rw [show (16385 : Nat) = 16384 + 1 from rfl, groupIndices_succ, claimedIndices_succ,
    groupIndices_eq_claimed 16384 le_rfl] at hEq
  have hblocks := List.append_cancel_left hEq
  have h0 : u16block 16384 = [0, 1, 2, 2, 3, 0] := by decide
  rw [h0] at hblocks
  exact absurd hblocks (by decide)

theorem flatMap_six_extract {α β : Type} (f : α → List β) (hf : ∀ a, (f a).length = 6) :
    ∀ (l : List α) (i : Nat) (h : i < l.length),
      ((l.flatMap f).drop (6 * i)).take 6 = f (l.get ⟨i, h⟩) := by
  intro l
  induction l with
  | nil => intro i h; simp at h
  | cons a t ih =>
    intro i h
    cases i with
    | zero =>
      rw [List.flatMap_cons]
      simp only [Nat.mul_zero, List.drop_zero]
      rw [show (6 : Nat) = (f a).length from (hf a).symm, List.take_left]
      rfl
    | succ i =>
      rw [List.flatMap_cons,
        show 6 * (i + 1) = (f a).length + 6 * i by rw [hf a]; ring,
        List.drop_append]
      exact ih i (by simp only [List.length_cons] at h; omega)

theorem groupIndices_extract (n i : Nat) (h : i < n) :
    ((groupIndices n).drop (6 * i)).take 6 = u16block i := by
  have he := flatMap_six_extract u16block (fun _ => rfl) (List.range n) i
    (by simpa using h)
  rw [groupIndices, he, List.get_range]

theorem flatMap_opVertices_length (ops : List DrawTextureOperation) :
    (ops.flatMap opVertices).length = 4 * ops.length := by
  induction ops with
  | nil => rfl
  | cons a t ih =>
    rw [List.flatMap_cons, List.length_append, ih, opVertices_length, List.length_cons]
    omega

theorem mem_sortedKeys {operations : List DrawTextureOperation} {k : Int} :
    k ∈ sortedKeys operations ↔ k ∈ operations.map DrawTextureOperation.index := by
  rw [sortedKeys, (List.perm_insertionSort _ _).mem_iff, List.mem_dedup]

theorem sortedKeys_sorted (operations : List DrawTextureOperation) :
    List.Sorted (· < ·) (sortedKeys operations) := by
  have hs : List.Sorted (· ≤ ·) (sortedKeys operations) := List.sorted_insertionSort _ _
  have hn : (sortedKeys operations).Nodup :=
    ((List.perm_insertionSort _ _).nodup_iff).mpr (List.nodup_dedup _)
  exact hs.lt_of_le hn

theorem sortedKeys_perm_eq {ops ops' : List DrawTextureOperation} (h : ops.Perm ops') :
    sortedKeys ops = sortedKeys ops' := by
  refine List.eq_of_perm_of_sorted ?_ (List.sorted_insertionSort _ _)
    (List.sorted_insertionSort _ _)
  have h1 : (sortedKeys ops).Perm ((ops.map DrawTextureOperation.index).dedup) :=
    List.perm_insertionSort _ _
  have h2 : ((ops.map DrawTextureOperation.index).dedup).Perm
      ((ops'.map DrawTextureOperation.index).dedup) :=
    (h.map DrawTextureOperation.index).dedup
  have h3 : ((ops'.map DrawTextureOperation.index).dedup).Perm (sortedKeys ops') :=
    (List.perm_insertionSort _ _).symm
  exact (h1.trans h2).trans h3

theorem filterMap_eq_map_of_forall {α β : Type} {l : List α} {f : α → Option β} {g : α → β}
    (h : ∀ a ∈ l, f a = some (g a)) : l.filterMap f = l.map g := by
  induction l with
  | nil => rfl
  | cons a t ih =>
    have ha := h a (List.mem_cons_self a t)
    simp [List.filterMap_cons, ha, ih (fun x hx => h x (List.mem_cons_of_mem a hx))]

theorem buildGroup_of_mem {operations : List DrawTextureOperation} {k : Int}
    (h : k ∈ sortedKeys operations) :
    buildGroup (operations.filter (fun op => op.index = k)) = some (groupFor operations k) := by
  obtain ⟨op, hop, hk⟩ : ∃ op ∈ operations, op.index = k := by
    rcases List.mem_map.mp (mem_sortedKeys.mp h) with ⟨op, hop, hk⟩
    exact ⟨op, hop, hk⟩
  have hmem : op ∈ operations.filter (fun op => op.index = k) := by
    rw [List.mem_filter]
    exact ⟨hop, by simp [hk]⟩
  simp only [buildGroup, groupFor]
  cases hfil : operations.filter (fun op => op.index = k) with
  | nil => rw [hfil] at hmem; simp at hmem
  | cons a t => simp

theorem render_eq_map (operations : List DrawTextureOperation) :
    render operations = (sortedKeys operations).map (groupFor operations) := by
  rw [render]
  exact filterMap_eq_map_of_forall (fun k hk => buildGroup_of_mem hk)

theorem mem_render {operations : List DrawTextureOperation} {g : GroupBuffers}
    (hg : g ∈ render operations) :
    ∃ k ∈ sortedKeys operations, g = groupFor operations k := by
  rw [render_eq_map] at hg
  rcases List.mem_map.mp hg with ⟨k, hk, rfl⟩
  exact ⟨k, hk, rfl⟩

theorem singleton_of_nodup_all_eq {α : Type} {l : List α} {k : α}
    (hn : l.Nodup) (hall : ∀ x ∈ l, x = k) (hk : k ∈ l) : l = [k] := by
  cases l with
  | nil => cases hk
  | cons a t =>
    have ha : a = k := hall a (List.mem_cons_self a t)
    cases t with
    | nil => rw [ha]
    | cons b t2 =>
      exfalso
      have hb : b = k := hall b (by simp)
      exact (List.nodup_cons.mp hn).1 (by rw [ha, ← hb]; exact List.mem_cons_self b t2)

theorem sortedKeys_const {operations : List DrawTextureOperation} {k : Int}
    (hne : operations ≠ []) (hk : ∀ op ∈ operations, op.index = k) :
    sortedKeys operations = [k] := by
  apply singleton_of_nodup_all_eq
  · exact ((List.perm_insertionSort _ _).nodup_iff).mpr (List.nodup_dedup _)
  · intro x hx
    rcases List.mem_map.mp (mem_sortedKeys.mp hx) with ⟨op, hop, rfl⟩
    exact hk op hop
  · rw [mem_sortedKeys]
    cases operations with
    | nil => exact absurd rfl hne
    | cons a t =>
      exact List.mem_map.mpr ⟨a, List.mem_cons_self a t, hk a (List.mem_cons_self a t)⟩

theorem render_const (operations : List DrawTextureOperation) (k : Int)
    (hne : operations ≠ []) (hk : ∀ op ∈ operations, op.index = k) :
    render operations =
      [{ vertex_buffer := operations.flatMap opVertices
         texture := (operations.head hne).texture
         indices := groupIndices operations.length }] := by
  have hfil : operations.filter (fun op => op.index = k) = operations :=
    List.filter_eq_self.mpr (fun a ha => by simp [hk a ha])
  rw [render, sortedKeys_const hne hk]
  simp only [List.filterMap_cons, List.filterMap_nil, hfil, buildGroup,
    List.head?_eq_head hne]

/-! ## Tile-set arithmetic helpers -/

theorem tile_mul_le {W w x : Nat} (hx : x < W / w) : (x + 1) * w ≤ W := by
  have h1 : x + 1 ≤ W / w := hx
  calc (x + 1) * w ≤ W / w * w := Nat.mul_le_mul_right w h1
    _ ≤ W := Nat.div_mul_le_self W w

theorem sprite_coords (t : TileSet) (x y : Nat)
    (hx : (x + 1) * t.tile_dimensions.width < 4294967296)
    (hy : (y + 1) * t.tile_dimensions.height < 4294967296) :
    (t.sprite x y).tex_coords =
      { left := ((x * t.tile_dimensions.width : Nat) : ℚ) / (t.dimensions.width : ℚ)
        top := ((y * t.tile_dimensions.height : Nat) : ℚ) / (t.dimensions.height : ℚ)
        right := (((x + 1) * t.tile_dimensions.width : Nat) : ℚ) / (t.dimensions.width : ℚ)
        bottom := (((y + 1) * t.tile_dimensions.height : Nat) : ℚ) / (t.dimensions.height : ℚ) } := by
  have hxw : x * t.tile_dimensions.width < 4294967296 :=
    lt_of_le_of_lt (Nat.mul_le_mul_right _ (by omega)) hx
  have hyw : y * t.tile_dimensions.height < 4294967296 :=
    lt_of_le_of_lt (Nat.mul_le_mul_right _ (by omega)) hy
  have hx1 : u32 (u32 (x + 1) * t.tile_dimensions.width) = (x + 1) * t.tile_dimensions.width := by
    rcases Nat.eq_zero_or_pos t.tile_dimensions.width with h0 | hpos
    · simp [h0, u32]
    · have hlt : x + 1 < 4294967296 := by
        have h2 : x + 1 ≤ (x + 1) * t.tile_dimensions.width :=
          Nat.le_mul_of_pos_right (x + 1) hpos
        omega
      have hinner : u32 (x + 1) = x + 1 := Nat.mod_eq_of_lt hlt
      rw [hinner]
      exact Nat.mod_eq_of_lt hx
  have hy1 : u32 (u32 (y + 1) * t.tile_dimensions.height) = (y + 1) * t.tile_dimensions.height := by
    rcases Nat.eq_zero_or_pos t.tile_dimensions.height with h0 | hpos
    · simp [h0, u32]
    · have hlt : y + 1 < 4294967296 := by
        have h2 : y + 1 ≤ (y + 1) * t.tile_dimensions.height :=
          Nat.le_mul_of_pos_right (y + 1) hpos
        omega
      have hinner : u32 (y + 1) = y + 1 := Nat.mod_eq_of_lt hlt
      rw [hinner]
      exact Nat.mod_eq_of_lt hy
  simp only [TileSet.sprite]
  rw [hx1, hy1, show u32 (x * t.tile_dimensions.width) = x * t.tile_dimensions.width from
    Nat.mod_eq_of_lt hxw, show u32 (y * t.tile_dimensions.height) = y * t.tile_dimensions.height
    from Nat.mod_eq_of_lt hyw]

theorem tile_bounds_of_in_range {t : TileSet} {x y : Nat}
    (hx : x < (t.tile_count).1) (hy : y < (t.tile_count).2) :
    (x + 1) * t.tile_dimensions.width ≤ t.dimensions.width ∧
      (y + 1) * t.tile_dimensions.height ≤ t.dimensions.height ∧
      0 < t.dimensions.width ∧ 0 < t.dimensions.height := by
  rcases Nat.eq_zero_or_pos t.tile_dimensions.width with h0 | hwpos
  · rw [TileSet.tile_count] at hx
    simp [h0] at hx
  rcases Nat.eq_zero_or_pos t.tile_dimensions.height with h1 | hhpos
  · rw [TileSet.tile_count] at hy
    simp [h1] at hy
  have hxle : (x + 1) * t.tile_dimensions.width ≤ t.dimensions.width := tile_mul_le hx
  have hyle : (y + 1) * t.tile_dimensions.height ≤ t.dimensions.height := tile_mul_le hy
  have hwle : t.tile_dimensions.width ≤ (x + 1) * t.tile_dimensions.width := by
    calc t.tile_dimensions.width = 1 * t.tile_dimensions.width := by omega
      _ ≤ (x + 1) * t.tile_dimensions.width := Nat.mul_le_mul_right _ (by omega)
  have hhle : t.tile_dimensions.height ≤ (y + 1) * t.tile_dimensions.height := by
    calc t.tile_dimensions.height = 1 * t.tile_dimensions.height := by omega
      _ ≤ (y + 1) * t.tile_dimensions.height := Nat.mul_le_mul_right _ (by omega)
  exact ⟨hxle, hyle, by omega, by omega⟩

theorem sprite_coords_in_range (t : TileSet) (x y : Nat)
    (hx : x < (t.tile_count).1) (hy : y < (t.tile_count).2)
    (hW : t.dimensions.width < 4294967296) (hH : t.dimensions.height < 4294967296) :
    (t.sprite x y).tex_coords =
      { left := ((x * t.tile_dimensions.width : Nat) : ℚ) / (t.dimensions.width : ℚ)
        top := ((y * t.tile_dimensions.height : Nat) : ℚ) / (t.dimensions.height : ℚ)
        right := (((x + 1) * t.tile_dimensions.width : Nat) : ℚ) / (t.dimensions.width : ℚ)
        bottom := (((y + 1) * t.tile_dimensions.height : Nat) : ℚ) / (t.dimensions.height : ℚ) } := by
  obtain ⟨hxle, hyle, hWpos, hHpos⟩ := tile_bounds_of_in_range hx hy
  exact sprite_coords t x y (by omega) (by omega)

theorem sprite_texInvariant_in_range (t : TileSet) (x y : Nat)
    (hx : x < (t.tile_count).1) (hy : y < (t.tile_count).2)
    (hW : t.dimensions.width < 4294967296) (hH : t.dimensions.height < 4294967296) :
    (t.sprite x y).texInvariant := by
  obtain ⟨hxle, hyle, hWpos, hHpos⟩ := tile_bounds_of_in_range hx hy
  have hWQ : (0 : ℚ) < (t.dimensions.width : ℚ) := by exact_mod_cast hWpos
  have hHQ : (0 : ℚ) < (t.dimensions.height : ℚ) := by exact_mod_cast hHpos
  rw [Sprite.texInvariant, sprite_coords_in_range t x y hx hy hW hH]
  refine ⟨?_, ?_, ?_, ?_, ?_, ?_⟩
  · exact div_nonneg (Nat.cast_nonneg _) (Nat.cast_nonneg _)
  · refine div_le_div_of_nonneg_right ?_ (le_of_lt hWQ)
    exact_mod_cast Nat.mul_le_mul_right _ (by omega : x ≤ x + 1)
  · exact (div_le_one hWQ).mpr (by exact_mod_cast hxle)
  · exact div_nonneg (Nat.cast_nonneg _) (Nat.cast_nonneg _)
  · refine div_le_div_of_nonneg_right ?_ (le_of_lt hHQ)
    exact_mod_cast Nat.mul_le_mul_right _ (by omega : y ≤ y + 1)
  · exact (div_le_one hHQ).mpr (by exact_mod_cast hyle)

theorem load_data_texInvariant (texture : Nat) (dimensions : Size) :
    (Sprite.load_data texture dimensions).texInvariant := by
  unfold Sprite.texInvariant Sprite.load_data
  norm_num

/-! ## Claims about `TileSet` and `Sprite` construction -/

/-- C5: for every TileSet with non-zero tile dimensions, `tile_count` is the
truncating integer division of the sheet dimensions by the tile dimensions. -/
theorem c5_tile_count (t : TileSet)
    (hw : t.tile_dimensions.width ≠ 0) (hh : t.tile_dimensions.height ≠ 0) :
    t.tile_count =
      (t.dimensions.width / t.tile_dimensions.width,
       t.dimensions.height / t.tile_dimensions.height) := rfl

/-- C5 witness: the 100×50 sheet with 32×32 tiles has `tile_count = (3, 1)`. -/
theorem c5_tile_count_witness :
    tileSet100.tile_dimensions.width ≠ 0 ∧ tileSet100.tile_dimensions.height ≠ 0 ∧
      tileSet100.tile_count = (3, 1) :=
  ⟨by decide, by decide, c5_tile_count tileSet100 (by decide) (by decide)⟩

/-- C3 counterexample: on the 100×50 sheet with 32×32 tiles (`tile_count = (3, 1)`),
the in-range tile `(1, 0)` has `left = 32/100 = 8/25`, not `x / tileCountX = 1/3`
as the claim states: the code divides by the sheet dimensions, not by the tile
count, and the two only agree when the tiles evenly divide the sheet. -/
theorem c3_counterexample :
    1 < (tileSet100.tile_count).1 ∧ 0 < (tileSet100.tile_count).2 ∧
      (tileSet100.sprite 1 0).tex_coords.left ≠
        (1 : ℚ) / ((tileSet100.tile_count).1 : ℚ) := by
  refine ⟨by decide, by decide, ?_⟩
  norm_num [TileSet.sprite, TileSet.tile_count, tileSet100, u32]

/-- C3 (amended): for every in-range tile index, the tex coords are
`x*tileW/W`, `(x+1)*tileW/W`, `y*tileH/H`, `(y+1)*tileH/H` (which equal
`x/tileCountX` etc. exactly when the tile dimensions evenly divide the sheet),
and all four values lie in `[0, 1]`. -/
theorem c3_sprite_in_range (t : TileSet) (x y : Nat)
    (hx : x < (t.tile_count).1) (hy : y < (t.tile_count).2)
    (hW : t.dimensions.width < 4294967296) (hH : t.dimensions.height < 4294967296) :
    (t.sprite x y).tex_coords =
      { left := ((x * t.tile_dimensions.width : Nat) : ℚ) / (t.dimensions.width : ℚ)
        top := ((y * t.tile_dimensions.height : Nat) : ℚ) / (t.dimensions.height : ℚ)
        right := (((x + 1) * t.tile_dimensions.width : Nat) : ℚ) / (t.dimensions.width : ℚ)
        bottom := (((y + 1) * t.tile_dimensions.height : Nat) : ℚ) / (t.dimensions.height : ℚ) }
    ∧ (t.sprite x y).texInvariant :=
  ⟨sprite_coords_in_range t x y hx hy hW hH, sprite_texInvariant_in_range t x y hx hy hW hH⟩

/-- C3 witness: tile `(1, 1)` of the 64×64 sheet with 32×32 tiles. -/
theorem c3_sprite_in_range_witness :
    (tileSet64.sprite 1 1).tex_coords =
      { left := ((1 * tileSet64.tile_dimensions.width : Nat) : ℚ) / (tileSet64.dimensions.width : ℚ)
        top := ((1 * tileSet64.tile_dimensions.height : Nat) : ℚ) / (tileSet64.dimensions.height : ℚ)
        right := (((1 + 1) * tileSet64.tile_dimensions.width : Nat) : ℚ) /
          (tileSet64.dimensions.width : ℚ)
        bottom := (((1 + 1) * tileSet64.tile_dimensions.height : Nat) : ℚ) /
          (tileSet64.dimensions.height : ℚ) }
    ∧ (tileSet64.sprite 1 1).texInvariant :=
  c3_sprite_in_range tileSet64 1 1 (by decide) (by decide) (by decide) (by decide)

/-- C4 (amended): for every tile index, in range or not, as long as the `u32`
products `(x+1)*tileW` and `(y+1)*tileH` do not overflow, the sprite's tex
coords follow the `x*tileW/W` formulas and its texture is the TileSet's shared
texture.  (On overflow the `u32` arithmetic wraps and the formula no longer
holds, hence the hypotheses.) -/
theorem c4_sprite_any_index (t : TileSet) (x y : Nat)
    (hx : (x + 1) * t.tile_dimensions.width < 4294967296)
    (hy : (y + 1) * t.tile_dimensions.height < 4294967296) :
    (t.sprite x y).tex_coords =
      { left := ((x * t.tile_dimensions.width : Nat) : ℚ) / (t.dimensions.width : ℚ)
        top := ((y * t.tile_dimensions.height : Nat) : ℚ) / (t.dimensions.height : ℚ)
        right := (((x + 1) * t.tile_dimensions.width : Nat) : ℚ) / (t.dimensions.width : ℚ)
        bottom := (((y + 1) * t.tile_dimensions.height : Nat) : ℚ) / (t.dimensions.height : ℚ) }
    ∧ (t.sprite x y).texture = t.texture :=
  ⟨sprite_coords t x y hx hy, rfl⟩

/-- C4 witness: the out-of-range tile `(5, 0)` of the 1×1 sheet still follows
the formula (no bounds check), yielding `right = 6` outside `[0, 1]`. -/
theorem c4_sprite_any_index_witness :
    ((oneTile.sprite 5 0).tex_coords =
      { left := ((5 * oneTile.tile_dimensions.width : Nat) : ℚ) / (oneTile.dimensions.width : ℚ)
        top := ((0 * oneTile.tile_dimensions.height : Nat) : ℚ) / (oneTile.dimensions.height : ℚ)
        right := (((5 + 1) * oneTile.tile_dimensions.width : Nat) : ℚ) /
          (oneTile.dimensions.width : ℚ)
        bottom := (((0 + 1) * oneTile.tile_dimensions.height : Nat) : ℚ) /
          (oneTile.dimensions.height : ℚ) }
    ∧ (oneTile.sprite 5 0).texture = oneTile.texture) :=
  c4_sprite_any_index oneTile 5 0 (by decide) (by decide)

/-- C4 counterexample: at `x = 2^32 - 1` on the 1×1 sheet the `u32` increment
`x + 1` wraps to 0, so the code yields `right = 0` while the claimed formula
`(x+1)*tileW/W` says `2^32`: the claim does not hold for every tile index. -/
theorem c4_counterexample :
    (oneTile.sprite 4294967295 0).tex_coords.right = 0 ∧
      (((4294967295 + 1) * oneTile.tile_dimensions.width : Nat) : ℚ) /
          (oneTile.dimensions.width : ℚ) = 4294967296 := by
  constructor
  · norm_num [TileSet.sprite, oneTile, u32]
  · norm_num [oneTile]

/-- C6 counterexample: `TileSet::sprite` with the out-of-range argument `x = 2`
on the 1×1 sheet yields `right = 3 > 1`, so not every Sprite the public
interface produces satisfies the `[0, 1]` invariant. -/
theorem c6_counterexample : ¬ (oneTile.sprite 2 0).texInvariant := by
  rw [Sprite.texInvariant]
  intro h
  rcases h with ⟨-, -, h3, -⟩
  revert h3
  norm_num [TileSet.sprite, oneTile, u32]

/-- C6 (amended): every Sprite produced by `Sprite::load_data`,
`Sprite::load_image`, or `TileSet::sprite` on an in-range tile index satisfies
`0 ≤ left ≤ right ≤ 1` and `0 ≤ top ≤ bottom ≤ 1`.  (Immutability is inherent
in this functional embedding: a Sprite's fields are fixed at construction.) -/
theorem c6_sprite_invariant :
    (∀ (texture : Nat) (dimensions : Size), (Sprite.load_data texture dimensions).texInvariant)
    ∧ (∀ (texture : Nat) (decoded : Option Size) (s : Sprite),
        Sprite.load_image texture decoded = some s → s.texInvariant)
    ∧ (∀ (t : TileSet) (x y : Nat), x < (t.tile_count).1 → y < (t.tile_count).2 →
        t.dimensions.width < 4294967296 → t.dimensions.height < 4294967296 →
        (t.sprite x y).texInvariant) := by
  refine ⟨load_data_texInvariant, fun texture decoded s hs => ?_,
    fun t x y hx hy hW hH => sprite_texInvariant_in_range t x y hx hy hW hH⟩
  cases decoded with
  | none => exact absurd hs (by simp [Sprite.load_image])
  | some dimensions =>
    have hsome : Sprite.load_data texture dimensions = s := by
      simpa [Sprite.load_image] using hs
    rw [← hsome]
    exact load_data_texInvariant texture dimensions

/-- C6 witness: the invariant at a concrete `load_data` Sprite and a concrete
in-range tile Sprite. -/
theorem c6_sprite_invariant_witness :
    (Sprite.load_data 0 { width := 2, height := 2 }).texInvariant ∧
      (tileSet64.sprite 0 1).texInvariant :=
  ⟨c6_sprite_invariant.1 0 { width := 2, height := 2 },
   c6_sprite_invariant.2.2 tileSet64 0 1 (by decide) (by decide) (by decide) (by decide)⟩

/-! ## Claims about the texture-id counter -/

/-- C9 counterexample: the `AtomicU32` counter wraps, so the `2^32`-th call to
`Texture::new` is assigned the same id as the very first call: ids are not
never-repeating over arbitrarily many creations. -/
theorem c9_counterexample : textureIdOfCall 4294967296 = textureIdOfCall 0 := by
  rw [textureIdOfCall, textureIdOfCall, textureCounter_eq, textureCounter_eq]

/-- C9 (amended): the counter starts at 0 and, as long as fewer than `2^32`
textures have been created, any two Textures created in sequence receive
strictly increasing (hence never-repeating) ids, from any call sites. -/
theorem c9_ids_monotone (m n : Nat) (hmn : m < n) (hn : n < 4294967296) :
    textureIdOfCall 0 = 0 ∧ textureIdOfCall m < textureIdOfCall n := by
  rw [textureIdOfCall, textureIdOfCall, textureIdOfCall, textureCounter_eq,
    textureCounter_eq, textureCounter_eq]
  refine ⟨rfl, ?_⟩
  rw [Nat.mod_eq_of_lt (by omega), Nat.mod_eq_of_lt hn]
  exact hmn

/-- C9 witness: the first two creations receive ids 0 and 1. -/
theorem c9_ids_monotone_witness :
    textureIdOfCall 0 = 0 ∧ textureIdOfCall 0 < textureIdOfCall 1 :=
  c9_ids_monotone 0 1 (by decide) (by decide)

/-! ## Claims about `TextureRenderer::render` -/

/-- Sample operation lists for the renderer claims. -/
def permOpsA : List DrawTextureOperation := [opWith 5 0, opWith 1 0, opWith 3 0]

/-- A permutation of `permOpsA`. -/
def permOpsB : List DrawTextureOperation := [opWith 3 0, opWith 5 0, opWith 1 0]

/-- 16385 operations sharing order index 0: one more than fits the unwrapped
`u16` index pattern. -/
def wideOps : List DrawTextureOperation := List.replicate 16385 (opWith 0 0)

/-- The single group `render` builds for `wideOps`. -/
def wideGroup : GroupBuffers :=
  { vertex_buffer := wideOps.flatMap opVertices
    texture := 0
    indices := groupIndices 16385 }

theorem wideOps_ne_nil : wideOps ≠ [] :=
  List.length_pos.mp (by rw [wideOps, List.length_replicate]; omega)

theorem wideOps_const : ∀ op ∈ wideOps, op.index = 0 := fun op hop => by
  rw [List.eq_of_mem_replicate hop]; rfl

theorem wideGroup_indices : wideGroup.indices = groupIndices 16385 := by
  simp only [wideGroup]

theorem wideGroup_mem : wideGroup ∈ render wideOps := by
  have hr := render_const wideOps 0 wideOps_ne_nil wideOps_const
  have hlen : wideOps.length = 16385 := by rw [wideOps, List.length_replicate]
  have hhead : (wideOps.head wideOps_ne_nil) = opWith 0 0 := List.head_replicate _
  rw [hlen, hhead] at hr
  rw [hr]
  exact List.mem_singleton.mpr rfl

/-- C8: `Sprite::load_data` yields tex coords exactly `{0, 0, 1, 1}`, and a draw
operation carrying those tex coords emits them verbatim on the four vertices,
mapped to the destination-rect corners in the fixed order top-left,
bottom-left, bottom-right, top-right. -/
theorem c8_load_data_roundtrip (texture : Nat) (dimensions : Size) (dest : Rect) (k : Int) :
    (Sprite.load_data texture dimensions).tex_coords =
      { left := 0, top := 0, right := 1, bottom := 1 }
    ∧ opVertices
        { index := k
          destination := dest
          tex_coords := (Sprite.load_data texture dimensions).tex_coords
          texture := (Sprite.load_data texture dimensions).texture } =
      [ { position := (dest.left, dest.top, depth k), tex_coords := (0, 0) },
        { position := (dest.left, dest.bottom, depth k), tex_coords := (0, 1) },
        { position := (dest.right, dest.bottom, depth k), tex_coords := (1, 1) },
        { position := (dest.right, dest.top, depth k), tex_coords := (1, 0) } ] :=
  ⟨rfl, rfl⟩

/-- C2: draw calls are issued in ascending sorted order of the operations'
index keys, one group per distinct key, independently of submission order: the
key list is strictly sorted, invariant under permutation of the input, and
`render` maps exactly that key list to its groups. -/
theorem c2_ascending_order (ops ops' : List DrawTextureOperation) (hperm : ops.Perm ops') :
    List.Sorted (· < ·) (sortedKeys ops)
    ∧ sortedKeys ops = sortedKeys ops'
    ∧ render ops = (sortedKeys ops).map (groupFor ops) :=
  ⟨sortedKeys_sorted ops, sortedKeys_perm_eq hperm, render_eq_map ops⟩

/-- C2 witness: submission orders `{5, 1, 3}` and `{3, 5, 1}` both group in key
order `[1, 3, 5]`. -/
theorem c2_ascending_order_witness :
    (List.Sorted (· < ·) (sortedKeys permOpsA)
      ∧ sortedKeys permOpsA = sortedKeys permOpsB
      ∧ render permOpsA = (sortedKeys permOpsA).map (groupFor permOpsA))
    ∧ sortedKeys permOpsA = [1, 3, 5] :=
  ⟨c2_ascending_order permOpsA permOpsB (by decide), by decide⟩

/-- C1 (amended): rendering a nonempty list of N operations sharing one order
index builds exactly one group and issues exactly one indexed draw call, with
4·N vertices (per operation: top-left, bottom-left, bottom-right, top-right of
the destination rect, each paired with the matching corner of the source
tex-coord rect) and 6·N indices; the indices follow the pattern
`{0,1,2,2,3,0}` offset by `(4·i) mod 2^16` (u16 arithmetic), which equals the
claimed offset `4·i` whenever N ≤ 16384. -/
theorem c1_single_index_batch (ops : List DrawTextureOperation) (k : Int)
    (hne : ops ≠ []) (hk : ∀ op ∈ ops, op.index = k) :
    render ops =
      [{ vertex_buffer := ops.flatMap opVertices
         texture := (ops.head hne).texture
         indices := groupIndices ops.length }]
    ∧ drawCalls ops =
      [{ pipeline := (ops.head hne).texture
         texture_bind_group := (ops.head hne).texture
         vertex_buffer := ops.flatMap opVertices
         index_buffer := groupIndices ops.length
         index_count := 6 * ops.length }]
    ∧ (ops.flatMap opVertices).length = 4 * ops.length
    ∧ (groupIndices ops.length).length = 6 * ops.length
    ∧ (∀ op ∈ ops, opVertices op =
        [ { position := (op.destination.left, op.destination.top, depth op.index)
            tex_coords := (op.tex_coords.left, op.tex_coords.top) },
          { position := (op.destination.left, op.destination.bottom, depth op.index)
            tex_coords := (op.tex_coords.left, op.tex_coords.bottom) },
          { position := (op.destination.right, op.destination.bottom, depth op.index)
            tex_coords := (op.tex_coords.right, op.tex_coords.bottom) },
          { position := (op.destination.right, op.destination.top, depth op.index)
            tex_coords := (op.tex_coords.right, op.tex_coords.top) } ])
    ∧ (ops.length ≤ 16384 → groupIndices ops.length = claimedIndices ops.length) := by
  have hr := render_const ops k hne hk
  refine ⟨hr, ?_, flatMap_opVertices_length ops, groupIndices_length ops.length,
    fun op _ => rfl, fun hlen => groupIndices_eq_claimed _ hlen⟩
  rw [drawCalls, hr]
  simp [groupIndices_length]

/-- C1 witness: two operations sharing index 2. -/
theorem c1_single_index_batch_witness :
    render [opWith 2 0, opWith 2 1] =
      [{ vertex_buffer := [opWith 2 0, opWith 2 1].flatMap opVertices
         texture := 0
         indices := groupIndices 2 }]
    ∧ drawCalls [opWith 2 0, opWith 2 1] =
      [{ pipeline := 0
         texture_bind_group := 0
         vertex_buffer := [opWith 2 0, opWith 2 1].flatMap opVertices
         index_buffer := groupIndices 2
         index_count := 12 }]
    ∧ ([opWith 2 0, opWith 2 1].flatMap opVertices).length = 8
    ∧ (groupIndices 2).length = 12
    ∧ (∀ op ∈ [opWith 2 0, opWith 2 1], opVertices op =
        [ { position := (op.destination.left, op.destination.top, depth op.index)
            tex_coords := (op.tex_coords.left, op.tex_coords.top) },
          { position := (op.destination.left, op.destination.bottom, depth op.index)
            tex_coords := (op.tex_coords.left, op.tex_coords.bottom) },
          { position := (op.destination.right, op.destination.bottom, depth op.index)
            tex_coords := (op.tex_coords.right, op.tex_coords.bottom) },
          { position := (op.destination.right, op.destination.top, depth op.index)
            tex_coords := (op.tex_coords.right, op.tex_coords.top) } ])
    ∧ ((2 : Nat) ≤ 16384 → groupIndices 2 = claimedIndices 2) :=
  c1_single_index_batch [opWith 2 0, opWith 2 1] 2 (by simp)
    (by intro op hop
        simp only [List.mem_cons, List.not_mem_nil, or_false] at hop
        rcases hop with rfl | rfl <;> rfl)

/-- C1 counterexample: for a group of 16385 operations sharing one index, the
u16 index arithmetic wraps at the operation in position 16384, so the index
buffer is not the claimed pattern `{0,1,2,2,3,0}` offset by `4·i`. -/
theorem c1_counterexample :
    (render wideOps).map GroupBuffers.indices ≠ [claimedIndices 16385] := by
  have hr := render_const wideOps 0 wideOps_ne_nil wideOps_const
  have hlen : wideOps.length = 16385 := by rw [wideOps, List.length_replicate]
  rw [hlen] at hr
  rw [hr]
  simp only [List.map_cons, List.map_nil, List.cons.injEq, and_true, ne_eq]
  exact groupIndices_ne_claimed_16385

/-- C7: operations sharing one order index but referencing distinct textures
are still grouped together; the group's texture is the first operation's (in
submission order), the geometry of every operation is emitted, and the single
draw call uses the first operation's pipeline and bind group. -/
theorem c7_first_texture_wins (ops : List DrawTextureOperation) (k : Int)
    (hne : ops ≠ []) (hk : ∀ op ∈ ops, op.index = k)
    (op1 op2 : DrawTextureOperation) (h1 : op1 ∈ ops) (h2 : op2 ∈ ops)
    (hdiff : op1.texture ≠ op2.texture) :
    drawCalls ops =
      [{ pipeline := (ops.head hne).texture
         texture_bind_group := (ops.head hne).texture
         vertex_buffer := ops.flatMap opVertices
         index_buffer := groupIndices ops.length
         index_count := 6 * ops.length }] := by
  rw [drawCalls, render_const ops k hne hk]
  simp [groupIndices_length]

/-- C7 witness: two operations sharing index 4 with textures 0 and 1: one draw
call, pipeline and bind group from texture 0, geometry of both operations. -/
theorem c7_first_texture_wins_witness :
    drawCalls [opWith 4 0, opWith 4 1] =
      [{ pipeline := 0
         texture_bind_group := 0
         vertex_buffer := [opWith 4 0, opWith 4 1].flatMap opVertices
         index_buffer := groupIndices 2
         index_count := 12 }] :=
  c7_first_texture_wins [opWith 4 0, opWith 4 1] 4 (by simp)
    (by intro op hop
        simp only [List.mem_cons, List.not_mem_nil, or_false] at hop
        rcases hop with rfl | rfl <;> rfl)
    (opWith 4 0) (opWith 4 1) (by simp) (by simp) (by decide)

/-- C10 (amended): within each group built by `render`, the six index entries
of the operation at position `i` are `(i mod 2^16)·4 + {0,1,2,2,3,0}` in u16
wrap-around arithmetic; for `i ≥ 16384` (so for groups of **more than** 16384
operations) the offset wraps and none of the six entries addresses that
operation's own four vertices `4i..4i+3`. -/
theorem c10_u16_index_wrap (ops : List DrawTextureOperation) (g : GroupBuffers) (i : Nat)
    (hg : g ∈ render ops) (hi : 6 * i + 6 ≤ g.indices.length) :
    (g.indices.drop (6 * i)).take 6 = u16block i
    ∧ (16384 ≤ i → u16 (u16 i * 4) ≠ 4 * i ∧
        ∀ e ∈ (g.indices.drop (6 * i)).take 6, e < 4 * i) := by
  obtain ⟨key, hkey, rfl⟩ := mem_render hg
  have hlen : (groupFor ops key).indices =
      groupIndices (ops.filter (fun op => op.index = key)).length := rfl
  rw [hlen] at hi ⊢
  rw [groupIndices_length] at hi
  have him : i < (ops.filter (fun op => op.index = key)).length := by omega
  have hextract := groupIndices_extract _ i him
  refine ⟨hextract, fun h16 => ⟨?_, ?_⟩⟩
  · have : u16 (u16 i * 4) < 65536 := Nat.mod_lt _ (by omega)
    omega
  · intro e he
    rw [hextract] at he
    simp only [u16block, u16, List.mem_cons, List.not_mem_nil, or_false] at he
    rcases he with h | h | h | h | h | h <;> omega

/-- C10 witness: in the group of the 16385 shared-index operations, the
operation at position 16384 has wrapped indices. -/
theorem c10_u16_index_wrap_witness :
    ((wideGroup.indices.drop (6 * 16384)).take 6 = u16block 16384)
    ∧ (16384 ≤ 16384 → u16 (u16 16384 * 4) ≠ 4 * 16384 ∧
        ∀ e ∈ (wideGroup.indices.drop (6 * 16384)).take 6, e < 4 * 16384) :=
  c10_u16_index_wrap wideOps wideGroup 16384 wideGroup_mem
    (by rw [wideGroup_indices, groupIndices_length])

/-- C10 counterexample: a group of exactly 16384 operations does **not** wrap:
its index buffer is exactly the unwrapped pattern `4·i + {0,1,2,2,3,0}`, every
operation addressing its own four vertices, against the claim that every group
of 16384 or more operations wraps. -/
theorem c10_counterexample :
    (render (List.replicate 16384 (opWith 0 1))).map GroupBuffers.indices =
      [claimedIndices 16384] := by
  have hne : List.replicate 16384 (opWith 0 1) ≠ [] :=
    List.length_pos.mp (by rw [List.length_replicate]; omega)
  have hr := render_const (List.replicate 16384 (opWith 0 1)) 0 hne
    (fun op hop => by rw [List.eq_of_mem_replicate hop]; rfl)
  have hlen : (List.replicate 16384 (opWith 0 1)).length = 16384 := List.length_replicate _ _
  rw [hlen] at hr
  rw [hr]
  simp only [List.map_cons, List.map_nil]
  rw [groupIndices_eq_claimed 16384 le_rfl]
